import Mathlib

/- Verification of the swim-workout parser and analyzer.

The embedding follows the source layout:
  ast.rs      : Workout, Set, Statement, Distance, DistanceUnit, Stroke, Interval
  analyse.rs  : totalDistance and strokeDistribution (HashMap modelled as an
                association list with an entry-or-insert update, which is the
                deterministic representative of the unordered map)
  lexer.rs    : maximal-munch tokenizer with the logos priorities
  parser.rs   : recursive-descent parser over the buffered token sequence
  main.rs     : the naive distribution_helper traversal, lifted to the ast.rs
                Set type for comparison with the multiply-once shortcut -/

namespace Swim

/- ========================= AST (ast.rs) ========================= -/

inductive DistanceUnit where
  | meters
  | kilometers
deriving DecidableEq, Repr

structure Distance where
  value : Nat
  unit : DistanceUnit
deriving DecidableEq, Repr

structure Stroke where
  name : String
  modifiers : List String
deriving DecidableEq, Repr

inductive Interval where
  | seconds (n : Nat)
  | minutesSeconds (minutes : Nat) (seconds : Nat)
deriving DecidableEq, Repr

structure Statement where
  distance : Distance
  stroke : Stroke
  interval : Option Interval
deriving DecidableEq, Repr

inductive Set where
  | repetition (count : Nat) (set : Set)
  | block (sets : List Set)
  | statement (stmt : Statement)

structure Workout where
  sets : List Set

/- ==================== Analyzer (analyse.rs) ==================== -/

def Statement.totalDistance (stmt : Statement) : Nat :=
  match stmt.distance.unit with
  | DistanceUnit.meters => stmt.distance.value
  | DistanceUnit.kilometers => stmt.distance.value * 1000

mutual

def Set.totalDistance : Set → Nat
  | Set.repetition count set => count * Set.totalDistance set
  | Set.block sets => totalDistanceList sets
  | Set.statement stmt => stmt.totalDistance
termination_by structural s => s

def totalDistanceList : List Set → Nat
  | [] => 0
  | s :: rest => Set.totalDistance s + totalDistanceList rest

end

def Workout.totalDistance (w : Workout) : Nat :=
  totalDistanceList w.sets

/- The HashMap from String to u32 is modelled as an association list whose
update operation mirrors distribution.entry(stroke).or_insert(0) += distance:
bump the existing entry if the key is present, append a fresh entry otherwise.
Iteration order of the Rust map is unspecified; the list keeps insertion
order, a legitimate representative since the merge is commutative on values. -/
abbrev Distribution := List (String × Nat)

def distAdd : Distribution → String → Nat → Distribution
  | [], k, v => [(k, v)]
  | (q, w) :: rest, k, v =>
    if q = k then (q, w + v) :: rest else (q, w) :: distAdd rest k v

def distMerge (acc d : Distribution) : Distribution :=
  d.foldl (fun a kv => distAdd a kv.1 kv.2) acc

def distScale (count : Nat) (d : Distribution) : Distribution :=
  d.map (fun kv => (kv.1, kv.2 * count))

def Statement.strokeDistribution (stmt : Statement) : Distribution :=
  [(stmt.stroke.name, stmt.totalDistance)]

mutual

def Set.strokeDistribution : Set → Distribution
  | Set.repetition count set => distScale count (Set.strokeDistribution set)
  | Set.block sets => strokeDistributionList [] sets
  | Set.statement stmt => stmt.strokeDistribution
termination_by structural s => s

def strokeDistributionList : Distribution → List Set → Distribution
  | acc, [] => acc
  | acc, s :: rest => strokeDistributionList (distMerge acc (Set.strokeDistribution s)) rest

end

def Workout.strokeDistribution (w : Workout) : Distribution :=
  strokeDistributionList [] w.sets

/- Observations on a distribution: HashMap::get, the meters assigned to a
stroke name (0 when the key is absent), and the sum of all stored values. -/

def distLookup : Distribution → String → Option Nat
  | [], _ => none
  | (q, w) :: rest, k => if q = k then some w else distLookup rest k

def distValue (d : Distribution) (k : String) : Nat :=
  (distLookup d k).getD 0

def distSum (d : Distribution) : Nat :=
  (d.map Prod.snd).sum

/- ============ Naive traversal (main.rs distribution_helper) ============
The experimental variant in main.rs accumulates into a mutable map and,
under a repetition, literally re-traverses the child count times.  It is
lifted here to the unit-carrying ast.rs Set type (its own Statement stores
bare meters), so the two aggregation strategies can be compared on one AST. -/

mutual

def distributionHelper : Set → Distribution → Distribution
  | Set.repetition count set, strokes => distributionRepeat count set strokes
  | Set.block sets, strokes => distributionHelperList sets strokes
  | Set.statement stmt, strokes => distAdd strokes stmt.stroke.name stmt.totalDistance
termination_by s _ => (sizeOf s, 0)

def distributionRepeat : Nat → Set → Distribution → Distribution
  | 0, _, strokes => strokes
  | count + 1, set, strokes => distributionRepeat count set (distributionHelper set strokes)
termination_by count set _ => (sizeOf set, count + 1)

def distributionHelperList : List Set → Distribution → Distribution
  | [], strokes => strokes
  | s :: rest, strokes => distributionHelperList rest (distributionHelper s strokes)
termination_by l _ => (sizeOf l, 0)

end

def naiveDistribution (s : Set) : Distribution :=
  distributionHelper s []

/- Every distribution the code builds has pairwise distinct keys; the lemmas
about merging track that invariant. -/

def distKeysNodup (d : Distribution) : Prop :=
  (d.map Prod.fst).Nodup

/- ======================== Lexer (lexer.rs) ========================
Maximal-munch scanner over the character list of the input.  A token slot is
Option Token: some models Ok(Token), none models a logos Err slot (either a
span matching no pattern, or a number whose u32 parse fails).  The logos
priorities resolve as follows: the composite time literal always beats the
bare number by length; the keyword tokens x, m, km (priority 4) and s
(priority 3) beat the generic word (priority 2) exactly when the maximal
word run is that reserved string, and lose by length otherwise.  Whitespace
and the three comment forms are skipped, never emitted. -/

inductive Token where
  | number (n : Nat)
  | times
  | braceOpen
  | braceClose
  | meters
  | kilometers
  | word (chars : List Char)
  | parenOpen
  | parenClose
  | comma
  | atSign
  | seconds
  | time (chars : List Char)
deriving DecidableEq, Repr

abbrev Tok := Option Token

def isWhitespaceChar (c : Char) : Bool :=
  c == ' ' || c == '\t' || c == '\n' || c == '\r'

def isWordChar (c : Char) : Bool :=
  c.isAlpha || c == '.' || c == '-'

def digitsVal (cs : List Char) : Nat :=
  cs.foldl (fun a c => a * 10 + (c.toNat - 48)) 0

/- parse::<u32>().ok() in the number callback: an out-of-range literal makes
the callback return None, which logos turns into an error slot. -/
def numberTok (ds : List Char) : Tok :=
  if digitsVal ds < 2 ^ 32 then some (Token.number (digitsVal ds)) else none

def dropLine (cs : List Char) : List Char :=
  cs.dropWhile (fun c => c != '\n')

/- Longest match of the block-comment body-and-closer after an opening
slash-star, i.e. of ([^*]|\*[^/])*\*/ : the flag records whether the
previous character can serve as the star of the closing star-slash. -/
def blockCommentEnd : List Char → Bool → Option (List Char)
  | [], _ => none
  | c :: rest, true => if c = '/' then some rest else blockCommentEnd rest false
  | c :: rest, false => blockCommentEnd rest (c == '*')

/- One token (or skip) per step; every step consumes at least one character,
so fuel = length + 1 never runs out on the initial call from tokenize. -/
def tokenizeGo : Nat → List Char → List Tok
  | 0, _ => []
  | _ + 1, [] => []
  | fuel + 1, c :: cs =>
    if isWhitespaceChar c then tokenizeGo fuel cs
    else if c = '#' then tokenizeGo fuel (dropLine cs)
    else if c = '/' then
      match cs with
      | '/' :: rest => tokenizeGo fuel (dropLine rest)
      | '*' :: rest =>
        match blockCommentEnd rest false with
        | some rest2 => tokenizeGo fuel rest2
        | none => none :: tokenizeGo fuel cs
      | _ => none :: tokenizeGo fuel cs
    else if c.isDigit then
      let ds := (c :: cs).takeWhile Char.isDigit
      let after := (c :: cs).dropWhile Char.isDigit
      match after with
      | ':' :: r2 =>
        let ds2 := r2.takeWhile Char.isDigit
        if ds2 = [] then numberTok ds :: tokenizeGo fuel after
        else
          match r2.dropWhile Char.isDigit with
          | 's' :: r4 => some (Token.time (ds ++ ':' :: ds2 ++ ['s'])) :: tokenizeGo fuel r4
          | r3 => some (Token.time (ds ++ ':' :: ds2)) :: tokenizeGo fuel r3
      | _ => numberTok ds :: tokenizeGo fuel after
    else if c.isAlpha then
      let w := c :: cs.takeWhile isWordChar
      let rest := cs.dropWhile isWordChar
      (match w with
       | ['x'] => some Token.times
       | ['m'] => some Token.meters
       | ['s'] => some Token.seconds
       | ['k', 'm'] => some Token.kilometers
       | _ => some (Token.word w)) :: tokenizeGo fuel rest
    else if c = '\x7b' then some Token.braceOpen :: tokenizeGo fuel cs
    else if c = '\x7d' then some Token.braceClose :: tokenizeGo fuel cs
    else if c = '(' then some Token.parenOpen :: tokenizeGo fuel cs
    else if c = ')' then some Token.parenClose :: tokenizeGo fuel cs
    else if c = ',' then some Token.comma :: tokenizeGo fuel cs
    else if c = '@' then some Token.atSign :: tokenizeGo fuel cs
    else none :: tokenizeGo fuel cs

def tokenize (input : String) : List Tok :=
  tokenizeGo (input.data.length + 1) input.data

/- ==================== Parser (parser.rs) ====================
Each sub-parser consumes tokens from the front of the buffered sequence and
returns the value together with the remaining tokens; errors carry the
message of the corresponding Err arm of the source (quotes dropped). -/

def parseDistance : List Tok → Except String (Distance × List Tok)
  | some (Token.number n) :: rest =>
    match rest with
    | some Token.meters :: rest2 => .ok (⟨n, DistanceUnit.meters⟩, rest2)
    | some Token.kilometers :: rest2 => .ok (⟨n, DistanceUnit.kilometers⟩, rest2)
    | _ => .error "Expected m or km for distance unit"
  | _ => .error "Expected number for distance"

def parseModifiers : List Tok → Except String (List String × List Tok)
  | some (Token.word w) :: rest =>
    match rest with
    | some Token.comma :: rest2 =>
      match parseModifiers rest2 with
      | .ok (mods, rest3) => .ok (String.mk w :: mods, rest3)
      | .error e => .error e
    | some Token.parenClose :: rest2 => .ok ([String.mk w], rest2)
    | _ => .error "Expected comma or close paren after modifier"
  | _ => .error "Expected modifier in parentheses"

def parseStroke : List Tok → Except String (Stroke × List Tok)
  | some (Token.word w) :: rest =>
    match rest with
    | some Token.parenOpen :: rest2 =>
      match parseModifiers rest2 with
      | .ok (mods, rest3) => .ok (⟨String.mk w, mods⟩, rest3)
      | .error e => .error e
    | _ => .ok (⟨String.mk w, []⟩, rest)
  | _ => .error "Expected stroke name"

/- time.split on the colon character. -/
def splitColon : List Char → List (List Char)
  | [] => [[]]
  | c :: rest =>
    if c = ':' then [] :: splitColon rest
    else
      match splitColon rest with
      | [] => [[c]]
      | p :: ps => (c :: p) :: ps

/- trim_end_matches of the seconds suffix: strip every trailing s. -/
def trimEndS (cs : List Char) : List Char :=
  (cs.reverse.dropWhile (fun c => c == 's')).reverse

/- str::parse::<u32>: an optional leading plus sign, then only digits, and
the value must fit in a u32. -/
def parseU32 (cs : List Char) : Option Nat :=
  let ds := if cs.head? = some '+' then cs.tail else cs
  if ds = [] then none
  else if ds.all Char.isDigit then
    if digitsVal ds < 2 ^ 32 then some (digitsVal ds) else none
  else none

def parseInterval : List Tok → Except String (Option Interval × List Tok)
  | some Token.atSign :: rest =>
    match rest with
    | some (Token.number n) :: rest2 =>
      match rest2 with
      | some Token.seconds :: rest3 => .ok (some (Interval.seconds n), rest3)
      | _ => .ok (some (Interval.seconds n), rest2)
    | some (Token.time t) :: rest2 =>
      let parts := splitColon t
      if parts.length ≠ 2 then .error "Invalid time format"
      else
        match parseU32 (parts.getD 0 []), parseU32 (trimEndS (parts.getD 1 [])) with
        | some minutes, some seconds => .ok (some (Interval.minutesSeconds minutes seconds), rest2)
        | none, _ => .error "Invalid minutes"
        | some _, none => .error "Invalid seconds"
    | _ => .error "Expected number or time after at sign"
  | ts => .ok (none, ts)

def parseStatement (ts : List Tok) : Except String (Statement × List Tok) :=
  match parseDistance ts with
  | .error e => .error e
  | .ok (distance, ts1) =>
    match parseStroke ts1 with
    | .error e => .error e
    | .ok (stroke, ts2) =>
      match parseInterval ts2 with
      | .error e => .error e
      | .ok (interval, ts3) => .ok (⟨distance, stroke, interval⟩, ts3)

/- parse_statement().map(Set::Statement) in parse_set. -/
def parseStatementSet (ts : List Tok) : Except String (Set × List Tok) :=
  match parseStatement ts with
  | .ok (stmt, rest) => .ok (Set.statement stmt, rest)
  | .error e => .error e

/- The mutually recursive sub-parsers, built by structural recursion on a
fuel bound so that they compute by kernel reduction.  Between consuming two
tokens the call chain descends at most three levels (set to block to the
block loop), so fuel 3 * tokens + 3 is never exhausted on the initial call
from parse. -/

structure ParseFns where
  set : List Tok → Except String (Set × List Tok)
  repetition : List Tok → Except String (Set × List Tok)
  block : List Tok → Except String (Set × List Tok)
  blockSets : List Tok → Except String (List Set × List Tok)
  workoutSets : List Tok → Except String (List Set)

def mkParseFns : Nat → ParseFns
  | 0 =>
    { set := fun _ => .error "parser fuel exhausted"
      repetition := fun _ => .error "parser fuel exhausted"
      block := fun _ => .error "parser fuel exhausted"
      blockSets := fun _ => .error "parser fuel exhausted"
      workoutSets := fun _ => .error "parser fuel exhausted" }
  | fuel + 1 =>
    let P := mkParseFns fuel
    { set := fun ts =>
        match ts with
        | some (Token.number _) :: rest =>
          match rest with
          | some Token.times :: _ => P.repetition ts
          | _ => parseStatementSet ts
        | some Token.braceOpen :: _ => P.block ts
        | _ => .error "Expected number or open brace"
      repetition := fun ts =>
        match ts with
        | some (Token.number n) :: rest =>
          match rest with
          | some Token.times :: rest2 =>
            match P.set rest2 with
            | .ok (s, rest3) => .ok (Set.repetition n s, rest3)
            | .error e => .error e
          | _ => .error "Expected x after repetition count"
        | _ => .error "Expected number for repetition count"
      block := fun ts =>
        match ts with
        | some Token.braceOpen :: rest =>
          match P.blockSets rest with
          | .ok (sets, rest2) => .ok (Set.block sets, rest2)
          | .error e => .error e
        | _ => .error "Expected open brace"
      blockSets := fun ts =>
        match ts with
        | some Token.braceClose :: rest => .ok ([], rest)
        | [] => .error "Unexpected end of input in block"
        | _ =>
          match P.set ts with
          | .ok (s, rest) =>
            match P.blockSets rest with
            | .ok (sets, rest2) => .ok (s :: sets, rest2)
            | .error e => .error e
          | .error e => .error e
      workoutSets := fun ts =>
        match ts with
        | [] => .ok []
        | _ =>
          match P.set ts with
          | .ok (s, rest) =>
            match P.workoutSets rest with
            | .ok sets => .ok (s :: sets)
            | .error e => .error e
          | .error e => .error e }

def parseSet (fuel : Nat) (ts : List Tok) : Except String (Set × List Tok) :=
  (mkParseFns fuel).set ts

def parseRepetition (fuel : Nat) (ts : List Tok) : Except String (Set × List Tok) :=
  (mkParseFns fuel).repetition ts

def parseBlock (fuel : Nat) (ts : List Tok) : Except String (Set × List Tok) :=
  (mkParseFns fuel).block ts

def parseBlockSets (fuel : Nat) (ts : List Tok) : Except String (List Set × List Tok) :=
  (mkParseFns fuel).blockSets ts

def parseWorkoutSets (fuel : Nat) (ts : List Tok) : Except String (List Set) :=
  (mkParseFns fuel).workoutSets ts

def parse (input : String) : Except String Workout :=
  match parseWorkoutSets (3 * (tokenize input).length + 3) (tokenize input) with
  | .ok sets => .ok ⟨sets⟩
  | .error e => .error e

/- parse returns a Workout exactly when this is true. -/
def parseOk (input : String) : Bool :=
  match parse input with
  | .ok _ => true
  | .error _ => false

/- =================== Joint induction for Set =================== -/

theorem Set.inductionPair (P : Set → Prop) (Q : List Set → Prop)
    (hrep : ∀ count s, P s → P (Set.repetition count s))
    (hblock : ∀ l, Q l → P (Set.block l))
    (hstmt : ∀ stmt, P (Set.statement stmt))
    (hnil : Q [])
    (hcons : ∀ s l, P s → Q l → Q (s :: l)) :
    (∀ s, P s) ∧ ∀ l, Q l := by
  have hs : ∀ s, P s := by
    intro s
    induction s using Set.rec (motive_2 := Q) <;> solve_by_elim
  refine ⟨hs, ?_⟩
  intro l
  induction l with
  | nil => exact hnil
  | cons s rest ih => exact hcons s rest (hs s) ih

/- ======================= Shared lemmas ======================= -/

theorem totalDistanceList_eq_sum (l : List Set) :
    totalDistanceList l = (l.map Set.totalDistance).sum := by
  induction l with
  | nil => simp [totalDistanceList]
  | cons s rest ih => simp [totalDistanceList, ih]

theorem distSum_distAdd (d : Distribution) (k : String) (v : Nat) :
    distSum (distAdd d k v) = distSum d + v := by
  induction d with
  | nil => simp [distAdd, distSum]
  | cons kv rest ih =>
    obtain ⟨q, w⟩ := kv
    by_cases h : q = k <;> simp [distAdd, h, distSum] at ih ⊢ <;> omega

theorem distSum_distMerge (d acc : Distribution) :
    distSum (distMerge acc d) = distSum acc + distSum d := by
  induction d generalizing acc with
  | nil => simp [distMerge, distSum]
  | cons kv rest ih =>
    have step : distMerge acc (kv :: rest) = distMerge (distAdd acc kv.1 kv.2) rest := by
      simp [distMerge]
    rw [step, ih, distSum_distAdd]
    simp [distSum]
    omega

theorem distSum_distScale (count : Nat) (d : Distribution) :
    distSum (distScale count d) = distSum d * count := by
  induction d with
  | nil => simp [distScale, distSum]
  | cons kv rest ih =>
    simp [distScale, distSum] at ih ⊢
    rw [ih]
    ring

theorem distSum_strokeDistribution :
    (∀ s : Set, distSum (Set.strokeDistribution s) = Set.totalDistance s) ∧
      ∀ l : List Set, ∀ acc,
        distSum (strokeDistributionList acc l) = distSum acc + totalDistanceList l := by
  refine Set.inductionPair
    (fun s => distSum (Set.strokeDistribution s) = Set.totalDistance s)
    (fun l => ∀ acc, distSum (strokeDistributionList acc l) = distSum acc + totalDistanceList l)
    ?_ ?_ ?_ ?_ ?_
  · intro count s ih
    simp [Set.strokeDistribution, Set.totalDistance, distSum_distScale, ih, Nat.mul_comm]
  · intro l ih
    have h := ih []
    simp [distSum] at h
    simpa [Set.strokeDistribution, Set.totalDistance, distSum] using h
  · intro stmt
    simp [Set.strokeDistribution, Set.totalDistance, Statement.strokeDistribution, distSum]
  · intro acc
    simp [strokeDistributionList, totalDistanceList]
  · intro s l ihs ihl acc
    simp [strokeDistributionList, totalDistanceList, ihl, distSum_distMerge, ihs]
    omega

/- ========================= Claim C1 ========================= -/

/-- C1: totalDistance satisfies its recursive specification: a Statement
contributes its distance converted to meters (kilometers times 1000, meters
unchanged), a Block contributes the sum of the totals of its children, a
Repetition with count c contributes c times the total of its child (for every
c, including 0), and a Workout contributes the sum over its top-level sets. -/
theorem totalDistance_recursive_spec :
    (∀ stmt : Statement, Set.totalDistance (Set.statement stmt) =
      (match stmt.distance.unit with
       | DistanceUnit.meters => stmt.distance.value
       | DistanceUnit.kilometers => stmt.distance.value * 1000)) ∧
    (∀ sets : List Set, Set.totalDistance (Set.block sets) =
      (sets.map Set.totalDistance).sum) ∧
    (∀ (count : Nat) (s : Set), Set.totalDistance (Set.repetition count s) =
      count * Set.totalDistance s) ∧
    (∀ w : Workout, w.totalDistance = (w.sets.map Set.totalDistance).sum) := by
  refine ⟨fun stmt => rfl, fun sets => ?_, fun count s => rfl, fun w => ?_⟩
  · simp [Set.totalDistance, totalDistanceList_eq_sum]
  · simp [Workout.totalDistance, totalDistanceList_eq_sum]

/- ========================= Claim C2 ========================= -/

/-- C2: for every AST, the values stored in the strokeDistribution map sum to
exactly the totalDistance of the same AST, both at the Workout root and at
every Set node. -/
theorem distSum_strokeDistribution_eq_totalDistance :
    (∀ w : Workout, distSum w.strokeDistribution = w.totalDistance) ∧
      ∀ s : Set, distSum (Set.strokeDistribution s) = Set.totalDistance s := by
  refine ⟨fun w => ?_, distSum_strokeDistribution.1⟩
  have := distSum_strokeDistribution.2 w.sets []
  simpa [Workout.strokeDistribution, Workout.totalDistance, distSum] using this

/- ================ Lemmas on distValue (claim C3) ================ -/

theorem distValue_nil (k : String) : distValue [] k = 0 := rfl

theorem distValue_cons (p : String) (w : Nat) (rest : Distribution) (q : String) :
    distValue ((p, w) :: rest) q = if p = q then w else distValue rest q := by
  by_cases h : p = q <;> simp [distValue, distLookup, h]

theorem distAdd_cons_hit (p : String) (w : Nat) (rest : Distribution) (v : Nat) :
    distAdd ((p, w) :: rest) p v = (p, w + v) :: rest := by
  simp [distAdd]

theorem distAdd_cons_miss (p : String) (w : Nat) (rest : Distribution) (k : String)
    (v : Nat) (hpk : ¬ p = k) : distAdd ((p, w) :: rest) k v = (p, w) :: distAdd rest k v := by
  simp [distAdd, hpk]

theorem distValue_distAdd (d : Distribution) (k q : String) (v : Nat) :
    distValue (distAdd d k v) q = distValue d q + (if k = q then v else 0) := by
  induction d with
  | nil =>
    by_cases h : k = q <;> simp [distAdd, distValue, distLookup, h]
  | cons kv rest ih =>
    obtain ⟨p, w⟩ := kv
    by_cases hpk : p = k
    · subst hpk
      rw [distAdd_cons_hit, distValue_cons, distValue_cons]
      by_cases hpq : p = q <;> simp [hpq]
    · rw [distAdd_cons_miss p w rest k v hpk, distValue_cons, distValue_cons]
      by_cases hpq : p = q
      · have hkq : ¬ k = q := fun h => hpk (hpq.trans h.symm)
        simp [hpq, hkq]
      · simp [hpq, ih]

theorem distValue_eq_zero_of_not_mem (d : Distribution) (q : String)
    (h : q ∉ d.map Prod.fst) : distValue d q = 0 := by
  induction d with
  | nil => rfl
  | cons kv rest ih =>
    obtain ⟨p, w⟩ := kv
    simp only [List.map_cons, List.mem_cons, not_or] at h
    have hpq : ¬ p = q := fun hh => h.1 hh.symm
    simpa [distValue, distLookup, hpq] using ih h.2

theorem mem_keys_distAdd (d : Distribution) (k : String) (v : Nat) (q : String) :
    q ∈ (distAdd d k v).map Prod.fst ↔ q ∈ d.map Prod.fst ∨ q = k := by
  induction d with
  | nil => simp [distAdd]
  | cons kv rest ih =>
    obtain ⟨p, w⟩ := kv
    by_cases hpk : p = k
    · subst hpk
      simp [distAdd]
      tauto
    · simp [distAdd, hpk, ih]
      tauto

theorem distKeysNodup_distAdd (d : Distribution) (k : String) (v : Nat)
    (hd : distKeysNodup d) : distKeysNodup (distAdd d k v) := by
  induction d with
  | nil => simp [distAdd, distKeysNodup]
  | cons kv rest ih =>
    obtain ⟨p, w⟩ := kv
    simp only [distKeysNodup, List.map_cons, List.nodup_cons] at hd
    by_cases hpk : p = k
    · subst hpk
      rw [distAdd_cons_hit]
      simp only [distKeysNodup, List.map_cons, List.nodup_cons]
      exact hd
    · rw [distAdd_cons_miss p w rest k v hpk]
      simp only [distKeysNodup, List.map_cons, List.nodup_cons]
      refine ⟨?_, ih hd.2⟩
      intro hmem
      rcases (mem_keys_distAdd rest k v p).mp hmem with hin | hk
      · exact hd.1 hin
      · exact hpk hk

theorem distKeysNodup_distMerge (d acc : Distribution) (hacc : distKeysNodup acc) :
    distKeysNodup (distMerge acc d) := by
  induction d generalizing acc with
  | nil => simpa [distMerge] using hacc
  | cons kv rest ih =>
    have step : distMerge acc (kv :: rest) = distMerge (distAdd acc kv.1 kv.2) rest := by
      simp [distMerge]
    rw [step]
    exact ih _ (distKeysNodup_distAdd acc kv.1 kv.2 hacc)

theorem distKeysNodup_distScale (count : Nat) (d : Distribution)
    (hd : distKeysNodup d) : distKeysNodup (distScale count d) := by
  simpa [distKeysNodup, distScale, List.map_map, Function.comp] using hd

theorem distKeysNodup_strokeDistribution :
    (∀ s : Set, distKeysNodup (Set.strokeDistribution s)) ∧
      ∀ l : List Set, ∀ acc, distKeysNodup acc →
        distKeysNodup (strokeDistributionList acc l) := by
  refine Set.inductionPair
    (fun s => distKeysNodup (Set.strokeDistribution s))
    (fun l => ∀ acc, distKeysNodup acc → distKeysNodup (strokeDistributionList acc l))
    ?_ ?_ ?_ ?_ ?_
  · intro count s ih
    exact distKeysNodup_distScale count _ ih
  · intro l ih
    exact ih [] (by simp [distKeysNodup])
  · intro stmt
    simp [Set.strokeDistribution, Statement.strokeDistribution, distKeysNodup]
  · intro acc hacc
    simpa [strokeDistributionList] using hacc
  · intro s l ihs ihl acc hacc
    rw [strokeDistributionList]
    exact ihl _ (distKeysNodup_distMerge _ acc hacc)

theorem distValue_distMerge (d acc : Distribution) (q : String)
    (hd : distKeysNodup d) :
    distValue (distMerge acc d) q = distValue acc q + distValue d q := by
  induction d generalizing acc with
  | nil => simp [distMerge, distValue, distLookup]
  | cons kv rest ih =>
    obtain ⟨p, w⟩ := kv
    simp only [distKeysNodup, List.map_cons, List.nodup_cons] at hd
    have step : distMerge acc ((p, w) :: rest) = distMerge (distAdd acc p w) rest := by
      simp [distMerge]
    rw [step, ih _ hd.2, distValue_distAdd, distValue_cons]
    by_cases hpq : p = q
    · have hrest : distValue rest q = 0 :=
        distValue_eq_zero_of_not_mem rest q (hpq ▸ hd.1)
      simp [hpq, hrest]
    · simp [hpq]

theorem distValue_distScale (count : Nat) (d : Distribution) (q : String) :
    distValue (distScale count d) q = distValue d q * count := by
  induction d with
  | nil => simp [distScale, distValue, distLookup]
  | cons kv rest ih =>
    obtain ⟨p, w⟩ := kv
    by_cases hpq : p = q <;> simp [distScale, distValue, distLookup, hpq] at ih ⊢
    exact ih

theorem distValue_strokeDistributionList (l : List Set) (acc : Distribution) (q : String) :
    distValue (strokeDistributionList acc l) q =
      distValue acc q + (l.map (fun s => distValue (Set.strokeDistribution s) q)).sum := by
  induction l generalizing acc with
  | nil => simp [strokeDistributionList]
  | cons s rest ih =>
    rw [strokeDistributionList, ih,
      distValue_distMerge _ acc q (distKeysNodup_strokeDistribution.1 s)]
    simp
    omega

theorem distValue_distributionHelper :
    (∀ s : Set, ∀ (strokes : Distribution) (q : String),
      distValue (distributionHelper s strokes) q =
        distValue strokes q + distValue (Set.strokeDistribution s) q) ∧
    ∀ l : List Set, ∀ (strokes : Distribution) (q : String),
      distValue (distributionHelperList l strokes) q =
        distValue strokes q + distValue (strokeDistributionList [] l) q := by
  refine Set.inductionPair
    (fun s => ∀ strokes q, distValue (distributionHelper s strokes) q =
      distValue strokes q + distValue (Set.strokeDistribution s) q)
    (fun l => ∀ strokes q, distValue (distributionHelperList l strokes) q =
      distValue strokes q + distValue (strokeDistributionList [] l) q)
    ?_ ?_ ?_ ?_ ?_
  · intro count s ih strokes q
    have hrep : ∀ (c : Nat) (st : Distribution),
        distValue (distributionRepeat c s st) q =
          distValue st q + distValue (Set.strokeDistribution s) q * c := by
      intro c
      induction c with
      | zero => intro st; simp [distributionRepeat]
      | succ c ihc =>
        intro st
        rw [distributionRepeat, ihc, ih]
        ring
    rw [distributionHelper, hrep, Set.strokeDistribution, distValue_distScale]
  · intro l ih strokes q
    rw [distributionHelper, ih, Set.strokeDistribution]
  · intro stmt strokes q
    rw [distributionHelper, distValue_distAdd, Set.strokeDistribution]
    by_cases h : stmt.stroke.name = q <;>
      simp [Statement.strokeDistribution, distValue, distLookup, h]
  · intro strokes q
    simp [distributionHelperList, strokeDistributionList, distValue, distLookup]
  · intro s l ihs ihl strokes q
    rw [distributionHelperList, ihl, ihs,
      distValue_strokeDistributionList, distValue_strokeDistributionList]
    simp
    omega

/- ========================= Claim C3 ========================= -/

/-- C3: the multiply-once shortcut of analyse.rs and the naive traversal of
main.rs (which re-traverses a repetition child count times, accumulating into
one map) compute the same stroke-name-to-meters mapping: for every AST and
every stroke name, the meters assigned agree, a stroke name absent from one
map being assigned 0 meters.  In particular the two agree for count = 0,
where the shortcut keeps the keys of the child with value 0 and the naive
traversal never inserts them, both assigning 0 meters to every stroke. -/
theorem strokeDistribution_eq_naiveDistribution (s : Set) (q : String) :
    distValue (Set.strokeDistribution s) q = distValue (naiveDistribution s) q := by
  have h := distValue_distributionHelper.1 s [] q
  simp [naiveDistribution, h, distValue_nil]

/- ============== Unfolding equations for the sub-parsers ============== -/

theorem parseSet_succ (fuel : Nat) (ts : List Tok) :
    parseSet (fuel + 1) ts =
      match ts with
      | some (Token.number _) :: rest =>
        match rest with
        | some Token.times :: _ => parseRepetition fuel ts
        | _ => parseStatementSet ts
      | some Token.braceOpen :: _ => parseBlock fuel ts
      | _ => .error "Expected number or open brace" :=
  rfl

theorem parseRepetition_succ (fuel : Nat) (ts : List Tok) :
    parseRepetition (fuel + 1) ts =
      match ts with
      | some (Token.number n) :: rest =>
        match rest with
        | some Token.times :: rest2 =>
          match parseSet fuel rest2 with
          | .ok (s, rest3) => .ok (Set.repetition n s, rest3)
          | .error e => .error e
        | _ => .error "Expected x after repetition count"
      | _ => .error "Expected number for repetition count" :=
  rfl

theorem parseBlock_succ (fuel : Nat) (ts : List Tok) :
    parseBlock (fuel + 1) ts =
      match ts with
      | some Token.braceOpen :: rest =>
        match parseBlockSets fuel rest with
        | .ok (sets, rest2) => .ok (Set.block sets, rest2)
        | .error e => .error e
      | _ => .error "Expected open brace" :=
  rfl

theorem parseBlockSets_succ (fuel : Nat) (ts : List Tok) :
    parseBlockSets (fuel + 1) ts =
      match ts with
      | some Token.braceClose :: rest => .ok ([], rest)
      | [] => .error "Unexpected end of input in block"
      | _ =>
        match parseSet fuel ts with
        | .ok (s, rest) =>
          match parseBlockSets fuel rest with
          | .ok (sets, rest2) => .ok (s :: sets, rest2)
          | .error e => .error e
        | .error e => .error e :=
  rfl

theorem parseWorkoutSets_succ (fuel : Nat) (ts : List Tok) :
    parseWorkoutSets (fuel + 1) ts =
      match ts with
      | [] => .ok []
      | _ =>
        match parseSet fuel ts with
        | .ok (s, rest) =>
          match parseWorkoutSets fuel rest with
          | .ok sets => .ok (s :: sets)
          | .error e => .error e
        | .error e => .error e :=
  rfl

/- ========================= Claim C6 ========================= -/

/-- C6: parse_set dispatches by one or two tokens of lookahead: a number
followed by the x keyword commits to the repetition sub-parser on the same
token position, a number not followed by x commits to the statement
sub-parser, an opening brace commits to the block sub-parser, and any other
leading token slot is the syntax error of the catch-all arm. -/
theorem parseSet_dispatch (fuel : Nat) (ts : List Tok) :
    (∀ n rest, ts = some (Token.number n) :: rest →
      ((rest.head? = some (some Token.times) →
          parseSet (fuel + 1) ts = parseRepetition fuel ts) ∧
        (rest.head? ≠ some (some Token.times) →
          parseSet (fuel + 1) ts = parseStatementSet ts))) ∧
    (∀ rest, ts = some Token.braceOpen :: rest →
      parseSet (fuel + 1) ts = parseBlock fuel ts) ∧
    (∀ t rest, ts = t :: rest → (∀ n, t ≠ some (Token.number n)) →
      t ≠ some Token.braceOpen →
      parseSet (fuel + 1) ts = .error "Expected number or open brace") := by
  refine ⟨?_, ?_, ?_⟩
  · intro n rest h
    subst h
    constructor
    · intro hh
      cases rest with
      | nil => simp at hh
      | cons t r =>
        simp at hh
        subst hh
        rfl
    · intro hh
      cases rest with
      | nil => rfl
      | cons t r =>
        match t with
        | none => rfl
        | some (Token.number _) => rfl
        | some Token.times => exact absurd rfl hh
        | some Token.braceOpen => rfl
        | some Token.braceClose => rfl
        | some Token.meters => rfl
        | some Token.kilometers => rfl
        | some (Token.word _) => rfl
        | some Token.parenOpen => rfl
        | some Token.parenClose => rfl
        | some Token.comma => rfl
        | some Token.atSign => rfl
        | some Token.seconds => rfl
        | some (Token.time _) => rfl
  · intro rest h
    subst h
    rfl
  · intro t rest h hnum hbrace
    subst h
    match t with
    | none => rfl
    | some (Token.number n) => exact absurd rfl (hnum n)
    | some Token.times => rfl
    | some Token.braceOpen => exact absurd rfl hbrace
    | some Token.braceClose => rfl
    | some Token.meters => rfl
    | some Token.kilometers => rfl
    | some (Token.word _) => rfl
    | some Token.parenOpen => rfl
    | some Token.parenClose => rfl
    | some Token.comma => rfl
    | some Token.atSign => rfl
    | some Token.seconds => rfl
    | some (Token.time _) => rfl

/-- C6 witness: the dispatch theorem applied at the token sequence of 4x,
committing to the repetition sub-parser. -/
theorem parseSet_dispatch_witness :
    parseSet 1 [some (Token.number 4), some Token.times] =
      parseRepetition 0 [some (Token.number 4), some Token.times] :=
  ((parseSet_dispatch 0 [some (Token.number 4), some Token.times]).1 4
    [some Token.times] rfl).1 rfl

/- ========================= Claim C4 ========================= -/

/-- C4: each of the four malformed inputs of the spec, missing unit, bad
minute or second component, unclosed block, and missing x after the
repetition count, makes parse return an error, never an Ok Workout. -/
theorem malformed_inputs_fail :
    parseOk "100 fly @ 30s" = false ∧
    parseOk "100m fly @ 1:xyz" = false ∧
    parseOk "4x \x7b\n 50m free @ 30s\n" = false ∧
    parseOk "4 50m free @ 30s" = false :=
  ⟨rfl, rfl, rfl, rfl⟩

/- ========================= Claim C5 ========================= -/

/-- C5: the nested-repetition scenario parses, its total distance is
4 * (25 + 12 * 50) = 2500 meters, and its stroke distribution is exactly
the mapping assigning 100 to choice and 2400 to free. -/
theorem nested_repetition_scenario :
    (parse "4x \x7b\n  25m choice (easy) @ 60s\n  12x50m free @ 60s\n\x7d").map
        Workout.totalDistance = .ok 2500 ∧
      (parse "4x \x7b\n  25m choice (easy) @ 60s\n  12x50m free @ 60s\n\x7d").map
        Workout.strokeDistribution = .ok [("choice", 100), ("free", 2400)] :=
  ⟨rfl, rfl⟩

/- ========================= Claim C9 ========================= -/

/-- C9: the zero-repetition input parses, its total distance is 0, and the
free key of its stroke distribution is either absent or present with value
0 (the code keeps it present with value 0). -/
theorem zero_repetition_scenario :
    (parse "0x50m free @ 30s").map Workout.totalDistance = .ok 0 ∧
      ((parse "0x50m free @ 30s").map
          (fun w => distLookup w.strokeDistribution "free") = .ok none ∨
        (parse "0x50m free @ 30s").map
          (fun w => distLookup w.strokeDistribution "free") = .ok (some 0)) :=
  ⟨rfl, Or.inr rfl⟩

/- ===================== Lemmas for claim C7 ===================== -/

theorem splitColon_of_no_colon (cs : List Char) (h : ∀ c ∈ cs, c ≠ ':') :
    splitColon cs = [cs] := by
  induction cs with
  | nil => rfl
  | cons c rest ih =>
    have hc : ¬ c = ':' := h c (by simp)
    have hrest := ih (fun d hd => h d (by simp [hd]))
    simp [splitColon, hc, hrest]

theorem splitColon_append (m s : List Char) (hm : ∀ c ∈ m, c ≠ ':')
    (hs : ∀ c ∈ s, c ≠ ':') : splitColon (m ++ ':' :: s) = [m, s] := by
  induction m with
  | nil => simp [splitColon, splitColon_of_no_colon s hs]
  | cons c m2 ih =>
    have hc : ¬ c = ':' := hm c (by simp)
    have h2 := ih (fun d hd => hm d (by simp [hd]))
    simp [splitColon, hc, h2]

theorem isDigit_ne_s {c : Char} (h : c.isDigit) : ¬ (c == 's') = true := by
  intro hcs
  rw [beq_iff_eq] at hcs
  subst hcs
  simp [Char.isDigit] at h

theorem dropWhile_s_of_digits (l : List Char) (h : ∀ c ∈ l, c.isDigit) :
    l.dropWhile (fun c => c == 's') = l := by
  cases l with
  | nil => rfl
  | cons c rest =>
    have := isDigit_ne_s (h c (by simp))
    simp [List.dropWhile, this]

theorem trimEndS_of_digits (s : List Char) (h : ∀ c ∈ s, c.isDigit) :
    trimEndS s = s := by
  unfold trimEndS
  rw [dropWhile_s_of_digits s.reverse (fun c hc => h c (List.mem_reverse.mp hc))]
  exact s.reverse_reverse

theorem trimEndS_append_s (s : List Char) (h : ∀ c ∈ s, c.isDigit) :
    trimEndS (s ++ ['s']) = s := by
  unfold trimEndS
  rw [List.reverse_append]
  simp only [List.reverse_cons, List.reverse_nil, List.nil_append, List.singleton_append]
  rw [List.dropWhile_cons]
  simp only [beq_self_eq_true, if_true]
  rw [dropWhile_s_of_digits s.reverse (fun c hc => h c (List.mem_reverse.mp hc))]
  exact s.reverse_reverse

theorem parseU32_of_digits (s : List Char) (hne : s ≠ []) (h : ∀ c ∈ s, c.isDigit)
    (hlt : digitsVal s < 2 ^ 32) : parseU32 s = some (digitsVal s) := by
  unfold parseU32
  have hhead : s.head? ≠ some '+' := by
    cases s with
    | nil => simp
    | cons c rest =>
      have hc := h c (by simp)
      simp only [List.head?]
      intro hp
      rw [Option.some_inj] at hp
      subst hp
      simp [Char.isDigit] at hc
  have hall : s.all Char.isDigit = true := List.all_eq_true.mpr h
  simp [hhead, hne, hall, hlt]
  omega

/- ========================= Claim C7 ========================= -/

/-- C7: after the at sign, a bare number parses to Interval.seconds whether
or not the cosmetic s token follows, with the same remaining tokens; and a
composite time token written minutes colon seconds, with or without a
trailing s, has the trailing s stripped before the integer parse of the
seconds part and yields Interval.minutesSeconds with the components as
written. -/
theorem parseInterval_seconds_suffix_cosmetic :
    (∀ (n : Nat) (rest : List Tok),
      (rest.head? ≠ some (some Token.seconds) →
        parseInterval (some Token.atSign :: some (Token.number n) :: rest) =
          .ok (some (Interval.seconds n), rest)) ∧
      parseInterval (some Token.atSign :: some (Token.number n) :: some Token.seconds :: rest) =
        .ok (some (Interval.seconds n), rest)) ∧
    ∀ (m s : List Char) (rest : List Tok), m ≠ [] → s ≠ [] →
      (∀ c ∈ m, c.isDigit) → (∀ c ∈ s, c.isDigit) →
      digitsVal m < 2 ^ 32 → digitsVal s < 2 ^ 32 →
      parseInterval (some Token.atSign :: some (Token.time (m ++ ':' :: s)) :: rest) =
        .ok (some (Interval.minutesSeconds (digitsVal m) (digitsVal s)), rest) ∧
      parseInterval (some Token.atSign :: some (Token.time (m ++ ':' :: (s ++ ['s']))) :: rest) =
        .ok (some (Interval.minutesSeconds (digitsVal m) (digitsVal s)), rest) := by
  constructor
  · intro n rest
    constructor
    · intro hh
      cases rest with
      | nil => rfl
      | cons t r =>
        match t with
        | none => rfl
        | some (Token.number _) => rfl
        | some Token.times => rfl
        | some Token.braceOpen => rfl
        | some Token.braceClose => rfl
        | some Token.meters => rfl
        | some Token.kilometers => rfl
        | some (Token.word _) => rfl
        | some Token.parenOpen => rfl
        | some Token.parenClose => rfl
        | some Token.comma => rfl
        | some Token.atSign => rfl
        | some Token.seconds => exact absurd rfl hh
        | some (Token.time _) => rfl
    · rfl
  · intro m s rest hm hs hmd hsd hmlt hslt
    have hmc : ∀ c ∈ m, c ≠ ':' := by
      intro c hc
      have := hmd c hc
      intro hcol
      subst hcol
      simp [Char.isDigit] at this
    have hsc : ∀ c ∈ s, c ≠ ':' := by
      intro c hc
      have := hsd c hc
      intro hcol
      subst hcol
      simp [Char.isDigit] at this
    have hsc2 : ∀ c ∈ s ++ ['s'], c ≠ ':' := by
      intro c hc
      rcases List.mem_append.mp hc with hin | hin
      · exact hsc c hin
      · simp at hin
        subst hin
        decide
    constructor
    · have base : parseInterval
          (some Token.atSign :: some (Token.time (m ++ ':' :: s)) :: rest) =
          (if (splitColon (m ++ ':' :: s)).length ≠ 2 then
            Except.error "Invalid time format"
          else
            match parseU32 ((splitColon (m ++ ':' :: s)).getD 0 []),
                parseU32 (trimEndS ((splitColon (m ++ ':' :: s)).getD 1 [])) with
            | some minutes, some seconds =>
              Except.ok (some (Interval.minutesSeconds minutes seconds), rest)
            | none, _ => Except.error "Invalid minutes"
            | some _, none => Except.error "Invalid seconds") := rfl
      rw [base, splitColon_append m s hmc hsc]
      rw [show (([m, s] : List (List Char)).getD 0 []) = m from rfl,
        show (([m, s] : List (List Char)).getD 1 []) = s from rfl,
        trimEndS_of_digits s hsd, parseU32_of_digits m hm hmd hmlt,
        parseU32_of_digits s hs hsd hslt]
      simp
    · have base : parseInterval
          (some Token.atSign :: some (Token.time (m ++ ':' :: (s ++ ['s']))) :: rest) =
          (if (splitColon (m ++ ':' :: (s ++ ['s']))).length ≠ 2 then
            Except.error "Invalid time format"
          else
            match parseU32 ((splitColon (m ++ ':' :: (s ++ ['s']))).getD 0 []),
                parseU32 (trimEndS ((splitColon (m ++ ':' :: (s ++ ['s']))).getD 1 [])) with
            | some minutes, some seconds =>
              Except.ok (some (Interval.minutesSeconds minutes seconds), rest)
            | none, _ => Except.error "Invalid minutes"
            | some _, none => Except.error "Invalid seconds") := rfl
      rw [base, splitColon_append m (s ++ ['s']) hmc hsc2]
      rw [show (([m, s ++ ['s']] : List (List Char)).getD 0 []) = m from rfl,
        show (([m, s ++ ['s']] : List (List Char)).getD 1 []) = s ++ ['s'] from rfl,
        trimEndS_append_s s hsd, parseU32_of_digits m hm hmd hmlt,
        parseU32_of_digits s hs hsd hslt]
      simp

/-- C7 witness: at 30 with no suffix is thirty seconds, and the time token
1:30s strips the suffix and is one minute thirty seconds. -/
theorem parseInterval_seconds_suffix_cosmetic_witness :
    parseInterval [some Token.atSign, some (Token.number 30)] =
      .ok (some (Interval.seconds 30), []) ∧
    parseInterval [some Token.atSign, some (Token.time ['1', ':', '3', '0', 's'])] =
      .ok (some (Interval.minutesSeconds 1 30), []) := by
  constructor
  · exact (parseInterval_seconds_suffix_cosmetic.1 30 []).1 (by simp)
  · have h := (parseInterval_seconds_suffix_cosmetic.2 ['1'] ['3', '0'] []
      (by decide) (by decide) (by decide) (by decide) (by decide) (by decide)).2
    simpa using h

/- ===================== Lemmas for claim C8 =====================
A none slot (a lexing failure) can never be consumed by a successful
sub-parser: every Ok arm consumes only some tokens, so a none present in the
input tokens of a successful call is still present in the remaining tokens. -/

theorem errMem_parseDistance {ts rest : List Tok} {d : Distance}
    (h : parseDistance ts = .ok (d, rest)) (hmem : none ∈ ts) : none ∈ rest := by
  unfold parseDistance at h
  split at h
  · split at h <;> simp_all
  · simp_all

theorem errMem_parseModifiers (ts : List Tok) :
    ∀ {mods : List String} {rest : List Tok},
      parseModifiers ts = .ok (mods, rest) → none ∈ ts → none ∈ rest := by
  induction ts using parseModifiers.induct with
  | case1 w rest2 mods2 rest3 heq ih =>
    intro mods rest h hmem
    rw [parseModifiers, heq] at h
    have hmem2 : none ∈ rest2 := by simp_all
    have := ih heq hmem2
    simp_all
  | case2 w rest2 e heq ih =>
    intro mods rest h hmem
    rw [parseModifiers, heq] at h
    simp_all
  | case3 w rest2 =>
    intro mods rest h hmem
    rw [parseModifiers] at h
    simp_all
  | case4 w rest1 hne1 hne2 =>
    intro mods rest h hmem
    rw [parseModifiers] at h
    simp_all
    exact hne1
    exact hne2
  | case5 t hne =>
    intro mods rest h hmem
    rw [parseModifiers] at h
    simp_all
    exact hne

theorem errMem_parseStroke {ts rest : List Tok} {st : Stroke}
    (h : parseStroke ts = .ok (st, rest)) (hmem : none ∈ ts) : none ∈ rest := by
  unfold parseStroke at h
  split at h
  · split at h
    · rename_i w rest1 rest2
      split at h
      · rename_i mods rest3 heq
        have hmem2 : none ∈ rest2 := by simpa using hmem
        have := errMem_parseModifiers rest2 heq hmem2
        simp_all
      · simp_all
    · simp_all
  · simp_all

theorem errMem_parseInterval {ts rest : List Tok} {iv : Option Interval}
    (h : parseInterval ts = .ok (iv, rest)) (hmem : none ∈ ts) : none ∈ rest := by
  unfold parseInterval at h
  split at h
  · split at h
    · split at h <;> simp_all
    · rename_i t rest2
      simp only [ne_eq] at h
      split at h
      · simp_all
      · split at h <;> simp_all
    · simp_all
  · simp_all

theorem errMem_parseStatement {ts rest : List Tok} {stmt : Statement}
    (h : parseStatement ts = .ok (stmt, rest)) (hmem : none ∈ ts) : none ∈ rest := by
  unfold parseStatement at h
  split at h
  · simp_all
  · rename_i d ts1 heq1
    split at h
    · simp_all
    · rename_i st ts2 heq2
      split at h
      · simp_all
      · rename_i iv ts3 heq3
        have h1 := errMem_parseDistance heq1 hmem
        have h2 := errMem_parseStroke heq2 h1
        have h3 := errMem_parseInterval heq3 h2
        simp_all

theorem errMem_parseStatementSet {ts rest : List Tok} {s : Set}
    (h : parseStatementSet ts = .ok (s, rest)) (hmem : none ∈ ts) : none ∈ rest := by
  unfold parseStatementSet at h
  split at h
  · rename_i stmt rest1 heq
    have := errMem_parseStatement heq hmem
    simp_all
  · simp_all

theorem errMem_parsers (fuel : Nat) :
    (∀ ts s rest, parseSet fuel ts = .ok (s, rest) → none ∈ ts → none ∈ rest) ∧
    (∀ ts s rest, parseRepetition fuel ts = .ok (s, rest) → none ∈ ts → none ∈ rest) ∧
    (∀ ts s rest, parseBlock fuel ts = .ok (s, rest) → none ∈ ts → none ∈ rest) ∧
    (∀ ts l rest, parseBlockSets fuel ts = .ok (l, rest) → none ∈ ts → none ∈ rest) ∧
    (∀ ts l, none ∈ ts → parseWorkoutSets fuel ts ≠ .ok l) := by
  induction fuel with
  | zero =>
    refine ⟨?_, ?_, ?_, ?_, ?_⟩
    · intro ts s rest h hmem
      simp [parseSet, mkParseFns] at h
    · intro ts s rest h hmem
      simp [parseRepetition, mkParseFns] at h
    · intro ts s rest h hmem
      simp [parseBlock, mkParseFns] at h
    · intro ts l rest h hmem
      simp [parseBlockSets, mkParseFns] at h
    · intro ts l hmem h
      simp [parseWorkoutSets, mkParseFns] at h
  | succ f ih =>
    obtain ⟨ihSet, ihRep, ihBlock, ihBS, ihW⟩ := ih
    refine ⟨?_, ?_, ?_, ?_, ?_⟩
    · intro ts s rest h hmem
      rw [parseSet_succ] at h
      split at h
      · split at h
        · exact ihRep _ _ _ h hmem
        · exact errMem_parseStatementSet h hmem
      · exact ihBlock _ _ _ h hmem
      · simp_all
    · intro ts s rest h hmem
      rw [parseRepetition_succ] at h
      split at h
      · rename_i n rest1
        split at h
        · rename_i rest2
          split at h
          · rename_i s0 rest3 heq
            have hmem2 : none ∈ rest2 := by simpa using hmem
            have := ihSet _ _ _ heq hmem2
            simp_all
          · simp_all
        · simp_all
      · simp_all
    · intro ts s rest h hmem
      rw [parseBlock_succ] at h
      split at h
      · rename_i rest1
        split at h
        · rename_i sets rest2 heq
          have hmem2 : none ∈ rest1 := by simpa using hmem
          have := ihBS _ _ _ heq hmem2
          simp_all
        · simp_all
      · simp_all
    · intro ts l rest h hmem
      rw [parseBlockSets_succ] at h
      split at h
      · simp_all
      · simp_all
      · split at h
        · rename_i s0 rest1 heq1
          split at h
          · rename_i sets rest2 heq2
            have h1 := ihSet _ _ _ heq1 hmem
            have h2 := ihBS _ _ _ heq2 h1
            simp_all
          · simp_all
        · simp_all
    · intro ts l hmem hcon
      rw [parseWorkoutSets_succ] at hcon
      split at hcon
      · simp_all
      · split at hcon
        · rename_i s0 rest heq1
          split at hcon
          · rename_i sets heq2
            exact ihW rest sets (ihSet _ _ _ heq1 hmem) heq2
          · simp_all
        · simp_all

/- ========================= Claim C8 ========================= -/

/-- C8: an input whose lexing produces at least one failed token slot can
never parse successfully: the parser observes the failed slot at the point
it would next be consumed, and every consuming arm requires a valid token,
so parse returns an error and never an Ok Workout. -/
theorem lexical_failure_fails_parse (input : String) (h : none ∈ tokenize input) :
    parseOk input = false := by
  have hW := (errMem_parsers (3 * (tokenize input).length + 3)).2.2.2.2 (tokenize input)
  unfold parseOk parse
  cases heq : parseWorkoutSets (3 * (tokenize input).length + 3) (tokenize input) with
  | ok sets => exact absurd heq (hW sets h)
  | error e => simp [heq]

/-- C8 witness: an input whose only flaw is an unlexable exclamation mark
fails to parse. -/
theorem lexical_failure_fails_parse_witness :
    none ∈ tokenize "50m free @ 30s !" ∧ parseOk "50m free @ 30s !" = false :=
  ⟨by decide, lexical_failure_fails_parse "50m free @ 30s !" (by decide)⟩

/- ========================= Claim C10 ========================= -/

/-- C10: an input whose token sequence is empty, such as the empty string or
pure whitespace and comments, parses to the Workout with no sets, whose
total distance is 0 and whose stroke distribution is the empty mapping. -/
theorem empty_token_sequence_parses (input : String) (h : tokenize input = []) :
    parse input = .ok ⟨[]⟩ ∧
      Workout.totalDistance ⟨[]⟩ = 0 ∧ Workout.strokeDistribution ⟨[]⟩ = [] := by
  refine ⟨?_, rfl, rfl⟩
  unfold parse
  rw [h]
  rfl

/-- C10 witness: a whitespace-and-comments input lexes to no tokens and
parses to the empty Workout. -/
theorem empty_token_sequence_parses_witness :
    parse " # hi\n// there\n/* block */ " = .ok ⟨[]⟩ ∧
      Workout.totalDistance ⟨[]⟩ = 0 ∧ Workout.strokeDistribution ⟨[]⟩ = [] :=
  empty_token_sequence_parses " # hi\n// there\n/* block */ " rfl

end Swim
